import Mathlib

/-!
Shallow embedding of `src/main.rs` of `lib_tfidf_test_hulth`, a TF-IDF
keyword-extraction evaluation harness over the Hulth dataset, together with
theorems settling the specification claims about it.

Modelling conventions:
* `f64` values are modelled by `F64`: either an exact rational value or NaN.
  The divisions performed by this program are either by a positive count or of
  the form `0/0` (which IEEE-754 maps to NaN, as does the model).  `+` and `×`
  are modelled without IEEE rounding; the theorems below rely on them only for
  branch structure, NaN propagation, commutativity and the sign of the exact
  result, all of which IEEE-754 arithmetic shares.  Properties that hinge on
  rounding itself — such as the order-(in)dependence of an `f64` summation —
  are outside this model and are not claimed by it.
* Rust `HashMap`s are modelled as association lists (`List.lookup`) and the
  term-to-score mapping returned by the external `lib_tfidf` crate as a list of
  pairs with pairwise-distinct keys.
* Rust's stable `sort_by` with a comparator is modelled by `List.insertionSort`
  on the relation "comparator does not answer `Greater`".
-/

/-- Model of an `f64` value as used by this program: an exact rational number
or NaN.  (The pipeline never produces infinities: every division it performs
has either a positive denominator or is `0/0`.) -/
inductive F64 where
  | val : ℚ → F64
  | nan : F64
deriving DecidableEq, Repr

/-- `f64::is_nan`. -/
def F64.isNan : F64 → Bool
  | .nan => true
  | .val _ => false

/-- IEEE equality `==` on `f64`: NaN is equal to nothing (including itself);
two numeric values are equal iff the rationals are. -/
def f64Beq : F64 → F64 → Bool
  | .val a, .val b => a = b
  | _, _ => false

/-- `f64` addition; NaN is absorbing. -/
def f64Add : F64 → F64 → F64
  | .val a, .val b => .val (a + b)
  | _, _ => .nan

/-- `f64` multiplication; NaN is absorbing. -/
def f64Mul : F64 → F64 → F64
  | .val a, .val b => .val (a * b)
  | _, _ => .nan

/-- `f64` division; NaN is absorbing and `x / 0` is NaN.  (In IEEE only `0/0`
is NaN; division of a nonzero value by zero is an infinity, but the program
only ever divides by `0` in the `0/0` form, where the model agrees.) -/
def f64Div : F64 → F64 → F64
  | .val a, .val b => if b = 0 then .nan else .val (a / b)
  | _, _ => .nan

/-- Conversion `usize as f64` (exact for the counts this program casts). -/
def natToF64 (n : Nat) : F64 := F64.val (n : ℚ)

/-- `cmp_f64` from `src/main.rs` lines 205-219: the comparator handed to
`sort_by`.  `Ordering.lt` models Rust `Ordering::Less` (sorts earlier),
`Ordering.gt` models `Ordering::Greater` (sorts later). -/
def cmp_f64 : F64 → F64 → Ordering
  | .nan, _ => Ordering.lt
  | _, .nan => Ordering.gt
  | .val a, .val b =>
    if a < b then Ordering.gt
    else if a > b then Ordering.lt
    else Ordering.eq

/-- The "comes no later than" relation induced by `cmp_f64`: Rust's `sort_by`
produces a list in which no out-of-order adjacent pair remains, i.e. sorted
with respect to `cmp_f64 a b ≠ Greater`. -/
def rankLE (a b : String × F64) : Prop := cmp_f64 a.2 b.2 ≠ Ordering.gt

instance : DecidableRel rankLE := fun a b =>
  inferInstanceAs (Decidable (cmp_f64 a.2 b.2 ≠ Ordering.gt))

/-- Model of `ranked.sort_by(|a, b| cmp_f64(*a.1, *b.1))` from `src/main.rs`
line 147: a stable comparison sort under `cmp_f64`. -/
def sortRanked (l : List (String × F64)) : List (String × F64) :=
  List.insertionSort rankLE l

/-- `mean` from `src/main.rs` lines 192-195: `v.iter().sum::<f64>()` is a left
fold of `+` starting from `0.0`, then divided by the length cast to `f64`. -/
def mean (v : List F64) : F64 :=
  f64Div (v.foldl f64Add (F64.val 0)) (natToF64 v.length)

/-- `f1` from `src/main.rs` lines 197-203. -/
def f1 (precision recall_ : F64) : F64 :=
  if f64Beq precision (F64.val 0) || f64Beq recall_ (F64.val 0) then F64.val 0
  else f64Mul (F64.val 2) (f64Div (f64Mul precision recall_) (f64Add precision recall_))

/-- `HulthToken` from `src/main.rs`: the deserialized token record.  `i64`
fields are modelled as unbounded `Int`; the i64 range is imposed as a
hypothesis where relevant. -/
structure HulthToken where
  word : String
  lemma_ : String
  offset_begin : Int
  offset_end : Int
  pos : String
deriving DecidableEq, Repr

/-- `Token::get_term` for `HulthToken`. -/
def HulthToken.get_term (t : HulthToken) : String := t.word

/-- `Token::get_offset_begin` for `HulthToken`: `self.offset_begin as usize`,
a wrapping `i64 → usize` cast on a 64-bit platform, i.e. reduction of the
integer modulo `2 ^ 64`. -/
def HulthToken.get_offset_begin (t : HulthToken) : Nat :=
  (t.offset_begin % (2 : Int) ^ 64).toNat

/-- `Token::get_pos` for `HulthToken` (`src/main.rs` lines 79-81): the
implementation ignores the parsed `pos` field and returns `None`. -/
def HulthToken.get_pos (_t : HulthToken) : Option String := none

/-- The literal pattern `".json"` as a character list. -/
def jsonPat : List Char := ['.', 'j', 's', 'o', 'n']

/-- Rust `str::replace(".json", "")`: scan left to right, remove each
non-overlapping occurrence of the pattern, never rescanning the output.
(Match priority makes the first arm fire exactly when `".json"` is a prefix
of the remaining input, as in `str::replace`.) -/
def removeJson : List Char → List Char
  | '.' :: 'j' :: 's' :: 'o' :: 'n' :: rest => removeJson rest
  | c :: cs => c :: removeJson cs
  | [] => []

/-- Decides whether `".json"` occurs as a contiguous substring. -/
def hasJsonPat : List Char → Bool
  | [] => false
  | c :: cs => jsonPat.isPrefixOf (c :: cs) || hasJsonPat cs

/-- `name.replace(".json", "")` from `src/main.rs` line 154: the key under
which a document's reference keywords are looked up. -/
def deriveKey (name : String) : String := String.mk (removeJson name.data)

/-- Rust `str::split(" ")` on the character-list level: splitting on every
single space, keeping empty fragments. -/
def splitChars (sep : Char) : List Char → List (List Char)
  | [] => [[]]
  | c :: cs =>
    let rest := splitChars sep cs
    if c = sep then [] :: rest
    else
      match rest with
      | [] => [[c]]
      | r :: rs => (c :: r) :: rs

/-- `s.split(" ")` as used on each reference phrase. -/
def splitSpaces (s : String) : List String :=
  (splitChars ' ' s.data).map String.mk

/-- The flattening of a document's reference keyphrase groups
(`src/main.rs` lines 157-160): every phrase of every group is split on
spaces and the fragments are collected into one list, duplicates retained. -/
def flatTokens (reference : List (List String)) : List String :=
  reference.flatMap (fun v => v.flatMap (fun s => splitSpaces s))

/-- The deduplicated reference token set described by the specification
("union all resulting tokens per document identifier into the final reference
token set").  Modelled from the spec's words for comparison with `flatTokens`;
the source itself keeps the flattened list. -/
def refTokenSetSpec (reference : List (List String)) : List String :=
  (flatTokens reference).dedup

/-- The `relevant` vector (`src/main.rs` lines 161-166): the terms of the
ranked list, in order, that occur in the flattened reference list. -/
def relevantTerms (ranked : List (String × F64)) (reference : List String) :
    List String :=
  (ranked.filter (fun p => reference.contains p.1)).map (fun p => p.1)

/-- `MeasureHolder` from `src/main.rs` lines 118-122. -/
structure MeasureHolder where
  precision : F64
  recall_ : F64
  f1 : F64
deriving DecidableEq, Repr

/-- The error produced for a document with no reference entry: the key
written to stderr by `eprintln!` and the `io::Error` message. -/
structure EvalErr where
  printedKey : String
  msg : String
deriving DecidableEq, Repr

/-- The per-document body of the second `for_each_file` loop in `main`
(`src/main.rs` lines 142-177): rank-sort the document's term-to-score mapping,
derive the lookup key from the file name, and either compute the measures or
fail with the offending key. -/
def evalOne (keywords : List (String × List (List String)))
    (fileName : String) (rankedMap : List (String × F64)) :
    Except EvalErr MeasureHolder :=
  let ranked := sortRanked rankedMap
  let name := deriveKey fileName
  match List.lookup name keywords with
  | some reference =>
    let reference := flatTokens reference
    let relevant := relevantTerms ranked reference
    let precision := f64Div (natToF64 relevant.length) (natToF64 ranked.length)
    let recall_ := f64Div (natToF64 relevant.length) (natToF64 reference.length)
    Except.ok ⟨precision, recall_, f1 precision recall_⟩
  | none => Except.error ⟨name, "found no keywords"⟩

/-- The whole evaluation loop: documents are processed in order and the first
failing document aborts the run (`for_each_file` returns the first `Err`),
so no measure list — and hence no aggregate — is produced. -/
def evalDocs (keywords : List (String × List (List String))) :
    List (String × List (String × F64)) → Except EvalErr (List MeasureHolder)
  | [] => Except.ok []
  | (fileName, rankedMap) :: rest =>
    match evalOne keywords fileName rankedMap with
    | Except.ok m => (evalDocs keywords rest).map (fun ms => m :: ms)
    | Except.error e => Except.error e

/-- The order `sortRanked` establishes, read off `cmp_f64`: a NaN score comes
no later than anything, a numeric score never precedes a NaN one, and numeric
scores are in non-increasing order. -/
def nanFirstGE : F64 → F64 → Prop
  | .nan, _ => True
  | .val _, .nan => False
  | .val a, .val b => b ≤ a

/-! ## Helper lemmas about the `f64` model -/

theorem f64Add_comm (a b : F64) : f64Add a b = f64Add b a := by
  cases a <;> cases b <;> simp [f64Add, add_comm]

theorem f64Mul_comm (a b : F64) : f64Mul a b = f64Mul b a := by
  cases a <;> cases b <;> simp [f64Mul, mul_comm]

theorem f64Beq_zero_iff (p : F64) : f64Beq p (F64.val 0) = true ↔ p = F64.val 0 := by
  cases p <;> simp [f64Beq]

theorem rankLE_iff_nanFirstGE (x y : String × F64) :
    rankLE x y ↔ nanFirstGE x.2 y.2 := by
  obtain ⟨_, a⟩ := x
  obtain ⟨_, b⟩ := y
  cases a with
  | nan => simp [rankLE, cmp_f64, nanFirstGE]
  | val qa =>
    cases b with
    | nan => simp [rankLE, cmp_f64, nanFirstGE]
    | val qb =>
      simp only [rankLE, cmp_f64, nanFirstGE]
      rcases lt_trichotomy qa qb with h | h | h
      · simp [h, not_le.mpr h]
      · simp [h, le_of_eq h.symm, lt_irrefl]
      · simp [not_lt.mpr (le_of_lt h), h, le_of_lt h]

instance : IsTrans (String × F64) rankLE :=
  ⟨fun x y z hxy hyz => by
    rw [rankLE_iff_nanFirstGE] at hxy hyz ⊢
    obtain ⟨_, a⟩ := x
    obtain ⟨_, b⟩ := y
    obtain ⟨_, c⟩ := z
    cases a <;> cases b <;> cases c <;> simp_all [nanFirstGE]
    exact le_trans hyz hxy⟩

instance : IsTotal (String × F64) rankLE :=
  ⟨fun x y => by
    rw [rankLE_iff_nanFirstGE, rankLE_iff_nanFirstGE]
    obtain ⟨_, a⟩ := x
    obtain ⟨_, b⟩ := y
    cases a <;> cases b <;> simp [nanFirstGE, le_total]⟩

/-! ## C9 -/

/-- C9: for every `HulthToken`, `get_pos` returns `None` regardless of the
`pos` field parsed from the input JSON, so the part-of-speech tag is never
exposed through the `Token` capability. -/
theorem C9_get_pos_always_none : ∀ t : HulthToken, t.get_pos = none :=
  fun _ => rfl

/-! ## C10 -/

/-- C10: `get_offset_begin` casts the `i64` field `offset_begin` to `usize`,
so the result is the field reduced modulo `2 ^ 64`; in particular a negative
in-range `offset_begin` wraps to `offset_begin + 2 ^ 64` instead of failing
or being rejected. -/
theorem C10_offset_begin_wraps (t : HulthToken) :
    t.get_offset_begin = (t.offset_begin % (2 : Int) ^ 64).toNat ∧
    (-(2 : Int) ^ 64 ≤ t.offset_begin → t.offset_begin < 0 →
      (t.get_offset_begin : Int) = t.offset_begin + 2 ^ 64) := by
  constructor
  · rfl
  · intro hlo hneg
    unfold HulthToken.get_offset_begin
    omega

/-- Witness for C10 at a token whose `offset_begin` is `-1`: the cast yields
`2 ^ 64 - 1`. -/
theorem C10_offset_begin_wraps_witness :
    (-(2 : Int) ^ 64 ≤ (-1 : Int)) ∧
    ((HulthToken.mk "w" "l" (-1) 0 "N" |>.get_offset_begin) : Int) = -1 + 2 ^ 64 :=
  ⟨by decide, (C10_offset_begin_wraps (HulthToken.mk "w" "l" (-1) 0 "N")).2
    (by decide) (by decide)⟩

/-! ## C5 -/

/-- C5: `f1 p r` returns `0` whenever `p = 0` or `r = 0`, and otherwise
returns `2 * ((p * r) / (p + r))`; consequently `f1` is symmetric in its two
arguments. -/
theorem C5_f1_zero_guard_formula_symmetric : ∀ p r : F64,
    ((p = F64.val 0 ∨ r = F64.val 0) → f1 p r = F64.val 0) ∧
    (p ≠ F64.val 0 → r ≠ F64.val 0 →
      f1 p r = f64Mul (F64.val 2) (f64Div (f64Mul p r) (f64Add p r))) ∧
    f1 p r = f1 r p := by
  intro p r
  refine ⟨?_, ?_, ?_⟩
  · rintro (rfl | rfl) <;> simp [f1, f64Beq]
  · intro hp hr
    have hp2 : f64Beq p (F64.val 0) = false := by
      rw [Bool.eq_false_iff]
      intro hc
      exact hp ((f64Beq_zero_iff p).mp hc)
    have hr2 : f64Beq r (F64.val 0) = false := by
      rw [Bool.eq_false_iff]
      intro hc
      exact hr ((f64Beq_zero_iff r).mp hc)
    simp [f1, hp2, hr2]
  · unfold f1
    rw [Bool.or_comm, f64Mul_comm p r, f64Add_comm p r]

/-- Witness for C5 at `p = 1, r = 0` (zero guard) and `p = r = 1`
(harmonic-mean formula). -/
theorem C5_f1_witness :
    f1 (F64.val 1) (F64.val 0) = F64.val 0 ∧
    f1 (F64.val 1) (F64.val 1) =
      f64Mul (F64.val 2)
        (f64Div (f64Mul (F64.val 1) (F64.val 1)) (f64Add (F64.val 1) (F64.val 1))) :=
  ⟨(C5_f1_zero_guard_formula_symmetric (F64.val 1) (F64.val 0)).1 (Or.inr rfl),
   (C5_f1_zero_guard_formula_symmetric (F64.val 1) (F64.val 1)).2.1
     (by simp) (by simp)⟩

/-! ## C6 -/

/-- C6: the reference lookup key is the file name with every occurrence of
the literal substring `".json"` removed — occurrences anywhere in the name,
not only a trailing extension: pattern-free names are unchanged, a leading
occurrence is removed, and concrete names with trailing, interior and
repeated occurrences all lose every occurrence. -/
theorem C6_deriveKey_removes_every_occurrence :
    (∀ s : List Char, hasJsonPat s = false → removeJson s = s) ∧
    (∀ s : List Char, removeJson (jsonPat ++ s) = removeJson s) ∧
    deriveKey "doc1.json" = "doc1" ∧
    deriveKey "a.jsonb.json" = "ab" ∧
    deriveKey "a.jsonb" = "ab" ∧
    deriveKey "report.json.json" = "report" := by
  refine ⟨?_, fun _ => rfl, by decide, by decide, by decide, by decide⟩
  intro s
  induction s using removeJson.induct with
  | case1 rest ih =>
    intro h
    simp [hasJsonPat, jsonPat, List.isPrefixOf] at h
  | case2 c cs hne ih =>
    intro h
    simp only [hasJsonPat, Bool.or_eq_false_iff] at h
    rw [removeJson.eq_2 c cs hne, ih h.2]
  | case3 => intro _; rfl

/-- Witness for C6 on a pattern-free name. -/
theorem C6_deriveKey_witness :
    hasJsonPat "ab".data = false ∧ removeJson "ab".data = "ab".data :=
  ⟨by decide, C6_deriveKey_removes_every_occurrence.1 "ab".data (by decide)⟩

/-! ## C4 -/

theorem evalOne_error_iff (kw : List (String × List (List String)))
    (fn : String) (rm : List (String × F64)) (e : EvalErr) :
    evalOne kw fn rm = Except.error e ↔
      List.lookup (deriveKey fn) kw = none ∧
        e = ⟨deriveKey fn, "found no keywords"⟩ := by
  unfold evalOne
  cases h : List.lookup (deriveKey fn) kw with
  | some reference => simp [h]
  | none => simp [h, eq_comm]

/-- C4: if some evaluated document's derived key has no entry in the
reference keyword mapping, the evaluation loop returns an error — no measure
list (hence no aggregate) is produced and the document is not silently
skipped — and the error carries the offending document key, the string
written to stderr before failing. -/
theorem C4_missing_reference_aborts :
    ∀ (kw : List (String × List (List String)))
      (docs : List (String × List (String × F64))),
      (∃ d ∈ docs, List.lookup (deriveKey d.1) kw = none) →
      ∃ e, evalDocs kw docs = Except.error e ∧
        e.msg = "found no keywords" ∧
        ∃ d ∈ docs, e.printedKey = deriveKey d.1 ∧
          List.lookup (deriveKey d.1) kw = none := by
  intro kw docs
  induction docs with
  | nil =>
    rintro ⟨d, hd, _⟩
    cases hd
  | cons head rest ih =>
    rintro ⟨d, hd, hnone⟩
    obtain ⟨fn, rm⟩ := head
    by_cases hh : List.lookup (deriveKey fn) kw = none
    · refine ⟨⟨deriveKey fn, "found no keywords"⟩, ?_, rfl,
        (fn, rm), List.mem_cons_self _ _, rfl, hh⟩
      have he : evalOne kw fn rm = Except.error ⟨deriveKey fn, "found no keywords"⟩ :=
        (evalOne_error_iff kw fn rm _).mpr ⟨hh, rfl⟩
      simp only [evalDocs]
      rw [he]
    · have hd2 : d ∈ rest := by
        rcases List.mem_cons.mp hd with heq | h2
        · subst heq
          exact absurd hnone hh
        · exact h2
      obtain ⟨e, he1, he2, d2, hd3, he3, he4⟩ := ih ⟨d, hd2, hnone⟩
      cases hev : evalOne kw fn rm with
      | ok m =>
        refine ⟨e, ?_, he2, d2, List.mem_cons_of_mem _ hd3, he3, he4⟩
        simp only [evalDocs]
        rw [hev, he1]
        rfl
      | error e2 =>
        exact absurd ((evalOne_error_iff kw fn rm e2).mp hev).1 hh

/-- Witness for C4: a single document against an empty keyword mapping. -/
theorem C4_missing_reference_witness :
    ∃ e, evalDocs [] [("d.json", [])] = Except.error e ∧
      e.msg = "found no keywords" ∧
      ∃ d ∈ [("d.json", ([] : List (String × F64)))],
        e.printedKey = deriveKey d.1 ∧
          List.lookup (deriveKey d.1)
            ([] : List (String × List (List String))) = none :=
  C4_missing_reference_aborts [] [("d.json", [])]
    ⟨("d.json", []), by decide, rfl⟩

/-! ## C1 -/

/-- Counterexample to C1: sorting the mapping `{a ↦ 1.0, b ↦ NaN}` with
`cmp_f64` places the NaN-scored term *first*, not strictly after the non-NaN
terms: `cmp_f64` answers `Less` whenever its first argument is NaN, and under
`sort_by` `Less` means "sorts earlier". -/
theorem C1_counterexample :
    sortRanked [("a", F64.val 1), ("b", F64.nan)] =
      [("b", F64.nan), ("a", F64.val 1)] ∧
    F64.isNan F64.nan = true ∧ F64.isNan (F64.val 1) = false := by
  refine ⟨?_, rfl, rfl⟩
  decide

/-- C1 (amended): the list sorted with `cmp_f64` is a permutation of the
mapping in which every NaN-scored term appears strictly *before* all
non-NaN-scored terms, and the non-NaN scores are in non-increasing order
(both captured pairwise by `nanFirstGE`). -/
theorem C1_sortRanked_nan_first_then_descending :
    ∀ l : List (String × F64),
      (sortRanked l).Perm l ∧
      (sortRanked l).Pairwise (fun p q => nanFirstGE p.2 q.2) := by
  intro l
  refine ⟨List.perm_insertionSort rankLE l, ?_⟩
  have hs : (sortRanked l).Pairwise rankLE := List.sorted_insertionSort rankLE l
  exact hs.imp fun h => (rankLE_iff_nanFirstGE _ _).mp h

/-! ## Shared evaluation helper -/

theorem evalOne_ok_of_lookup (kw : List (String × List (List String)))
    (fn : String) (rm : List (String × F64)) (ref : List (List String))
    (h : List.lookup (deriveKey fn) kw = some ref) :
    evalOne kw fn rm = Except.ok
      ⟨f64Div (natToF64 (relevantTerms (sortRanked rm) (flatTokens ref)).length)
              (natToF64 (sortRanked rm).length),
       f64Div (natToF64 (relevantTerms (sortRanked rm) (flatTokens ref)).length)
              (natToF64 (flatTokens ref).length),
       f1 (f64Div (natToF64 (relevantTerms (sortRanked rm) (flatTokens ref)).length)
                  (natToF64 (sortRanked rm).length))
          (f64Div (natToF64 (relevantTerms (sortRanked rm) (flatTokens ref)).length)
                  (natToF64 (flatTokens ref).length))⟩ := by
  simp only [evalOne, h]

/-! ## C2 -/

/-- Counterexample to C2: for the reference groups `[["a b", "a c"]]` the
flattened token list is `["a", "b", "a", "c"]` (length 4, duplicates kept),
while the deduplicated union has cardinality 3.  With the
single ranked term `a` the code computes recall `1/4`, not the `1/3` the
claim's deduplicated denominator would give. -/
theorem C2_counterexample :
    (evalOne [("d", [["a b", "a c"]])] "d.json" [("a", F64.val 1)]).map
        MeasureHolder.recall_ = Except.ok (F64.val (1 / 4)) ∧
    (refTokenSetSpec [["a b", "a c"]]).length = 3 ∧
    ¬ ((1 : ℚ) / 4 = 1 / 3) := by
  refine ⟨?_, by decide, by norm_num⟩
  rw [evalOne_ok_of_lookup _ _ _ [["a b", "a c"]] (by decide)]
  have hs : sortRanked [("a", F64.val 1)] = [("a", F64.val 1)] := by decide
  have hf : flatTokens [["a b", "a c"]] = ["a", "b", "a", "c"] := by decide
  rw [hs, hf]
  have hr : relevantTerms [("a", F64.val 1)] ["a", "b", "a", "c"] = ["a"] := by
    decide
  rw [hr]
  norm_num [Except.map, natToF64, f64Div]

/-- C2 (amended): the reference used for matching is the flattened token
list — whose membership coincides with the deduplicated union — but the
recall denominator is the length of that flattened list with duplicates
retained, not the cardinality of the deduplicated set. -/
theorem C2_recall_denominator_counts_duplicates :
    ∀ (kw : List (String × List (List String))) (fn : String)
      (rm : List (String × F64)) (ref : List (List String)),
      List.lookup (deriveKey fn) kw = some ref →
      flatTokens ref ≠ [] →
      ∃ m, evalOne kw fn rm = Except.ok m ∧
        m.recall_ = F64.val
          (((relevantTerms (sortRanked rm) (flatTokens ref)).length : ℚ) /
            ((flatTokens ref).length : ℚ)) ∧
        ∀ t, t ∈ flatTokens ref ↔ t ∈ refTokenSetSpec ref := by
  intro kw fn rm ref h hne
  refine ⟨_, evalOne_ok_of_lookup kw fn rm ref h, ?_, ?_⟩
  · have h0 : (flatTokens ref).length ≠ 0 := fun hl => hne (List.length_eq_zero.mp hl)
    have hlen : ((flatTokens ref).length : ℚ) ≠ 0 := Nat.cast_ne_zero.mpr h0
    simp [f64Div, natToF64, hlen]
  · intro t
    simp [refTokenSetSpec, List.mem_dedup]

/-- Witness for C2 (amended) at the concrete document of the counterexample. -/
theorem C2_recall_denominator_witness :
    ∃ m, evalOne [("d", [["a b", "a c"]])] "d.json" [("a", F64.val 1)] =
        Except.ok m ∧
      m.recall_ = F64.val
        (((relevantTerms (sortRanked [("a", F64.val 1)])
              (flatTokens [["a b", "a c"]])).length : ℚ) /
          ((flatTokens [["a b", "a c"]]).length : ℚ)) ∧
      ∀ t, t ∈ flatTokens [["a b", "a c"]] ↔ t ∈ refTokenSetSpec [["a b", "a c"]] :=
  C2_recall_denominator_counts_duplicates _ _ _ _ (by decide) (by decide)

/-! ## C3 -/

/-- Counterexample to C3: a document whose ranked term list is empty is
evaluated without any guard — the code silently computes
`precision = 0.0 / 0.0 = NaN` and pushes a measure, instead of reporting an
error. -/
theorem C3_counterexample :
    evalOne [("e", [["a"]])] "e.json" [] =
      Except.ok ⟨F64.nan, F64.val 0, F64.val 0⟩ ∧
    F64.isNan F64.nan = true := by
  refine ⟨?_, rfl⟩
  rw [evalOne_ok_of_lookup _ _ _ [["a"]] (by decide)]
  have hf : flatTokens [["a"]] = ["a"] := by decide
  rw [hf]
  norm_num [sortRanked, List.insertionSort, relevantTerms, natToF64, f64Div,
    f1, f64Beq]

/-- C3 (amended): neither denominator is guarded.  Whenever the reference
lookup succeeds, the evaluation of a document always produces a measure
(never an error), and an empty ranking silently yields
`precision = 0/0 = NaN`. -/
theorem C3_denominators_unguarded :
    ∀ (kw : List (String × List (List String))) (fn : String)
      (rm : List (String × F64)) (ref : List (List String)),
      List.lookup (deriveKey fn) kw = some ref →
      ∃ m, evalOne kw fn rm = Except.ok m ∧
        (rm = [] → m.precision = F64.nan) := by
  intro kw fn rm ref h
  refine ⟨_, evalOne_ok_of_lookup kw fn rm ref h, ?_⟩
  rintro rfl
  simp [sortRanked, List.insertionSort, relevantTerms, natToF64, f64Div]

/-- Witness for C3 (amended) at the concrete document of the counterexample. -/
theorem C3_denominators_unguarded_witness :
    ∃ m, evalOne [("e", [["a"]])] "e.json" [] = Except.ok m ∧
      (([] : List (String × F64)) = [] → m.precision = F64.nan) :=
  C3_denominators_unguarded [("e", [["a"]])] "e.json" [] [["a"]] (by decide)

/-! ## C7 -/

/-- C7: for every evaluated document whose ranked term list and reference
token collection are both non-empty, the computed precision and recall lie in
`[0, 1]`.  The ranked mapping has pairwise-distinct terms (it comes from a
`HashMap` keyed by term), imposed here as the `Nodup` hypothesis. -/
theorem C7_precision_recall_in_unit_interval :
    ∀ (kw : List (String × List (List String))) (fn : String)
      (rm : List (String × F64)) (ref : List (List String)) (m : MeasureHolder),
      List.lookup (deriveKey fn) kw = some ref →
      evalOne kw fn rm = Except.ok m →
      rm ≠ [] →
      flatTokens ref ≠ [] →
      (rm.map Prod.fst).Nodup →
      (∃ p, m.precision = F64.val p ∧ 0 ≤ p ∧ p ≤ 1) ∧
      (∃ r, m.recall_ = F64.val r ∧ 0 ≤ r ∧ r ≤ 1) := by
  intro kw fn rm ref m hlook hok hrm href hnd
  rw [evalOne_ok_of_lookup kw fn rm ref hlook] at hok
  injection hok with hm
  subst hm
  have hperm : (sortRanked rm).Perm rm := List.perm_insertionSort rankLE rm
  have hLne : (sortRanked rm).length ≠ 0 := by
    rw [hperm.length_eq]
    exact fun hl => hrm (List.length_eq_zero.mp hl)
  have hRne : (flatTokens ref).length ≠ 0 :=
    fun hl => href (List.length_eq_zero.mp hl)
  have hfilter :
      (relevantTerms (sortRanked rm) (flatTokens ref)).length ≤
        (sortRanked rm).length := by
    unfold relevantTerms
    rw [List.length_map]
    exact List.length_filter_le _ _
  have hndL : ((sortRanked rm).map Prod.fst).Nodup :=
    (hperm.map Prod.fst).nodup_iff.mpr hnd
  have hsub :
      (relevantTerms (sortRanked rm) (flatTokens ref)).Sublist
        ((sortRanked rm).map Prod.fst) := by
    unfold relevantTerms
    exact (List.filter_sublist (sortRanked rm)).map Prod.fst
  have hndrel : (relevantTerms (sortRanked rm) (flatTokens ref)).Nodup :=
    hsub.nodup hndL
  have hmem : ∀ x ∈ relevantTerms (sortRanked rm) (flatTokens ref),
      x ∈ flatTokens ref := by
    intro x hx
    unfold relevantTerms at hx
    obtain ⟨p, hp, rfl⟩ := List.mem_map.mp hx
    simpa using List.of_mem_filter hp
  have hcard :
      (relevantTerms (sortRanked rm) (flatTokens ref)).length ≤
        (flatTokens ref).length :=
    calc (relevantTerms (sortRanked rm) (flatTokens ref)).length
        = (relevantTerms (sortRanked rm) (flatTokens ref)).toFinset.card :=
          (List.toFinset_card_of_nodup hndrel).symm
      _ ≤ (flatTokens ref).toFinset.card :=
          Finset.card_le_card fun x hx =>
            List.mem_toFinset.mpr (hmem x (List.mem_toFinset.mp hx))
      _ ≤ (flatTokens ref).length := (flatTokens ref).toFinset_card_le
  have hLpos : (0 : ℚ) < ((sortRanked rm).length : ℚ) := by
    exact_mod_cast Nat.pos_of_ne_zero hLne
  have hRpos : (0 : ℚ) < ((flatTokens ref).length : ℚ) := by
    exact_mod_cast Nat.pos_of_ne_zero hRne
  constructor
  · refine ⟨((relevantTerms (sortRanked rm) (flatTokens ref)).length : ℚ) /
      ((sortRanked rm).length : ℚ), ?_, ?_, ?_⟩
    · show f64Div (natToF64 _) (natToF64 _) = _
      simp [f64Div, natToF64, ne_of_gt hLpos]
    · positivity
    · rw [div_le_one hLpos]
      exact_mod_cast hfilter
  · refine ⟨((relevantTerms (sortRanked rm) (flatTokens ref)).length : ℚ) /
      ((flatTokens ref).length : ℚ), ?_, ?_, ?_⟩
    · show f64Div (natToF64 _) (natToF64 _) = _
      simp [f64Div, natToF64, ne_of_gt hRpos]
    · positivity
    · rw [div_le_one hRpos]
      exact_mod_cast hcard

/-- Witness for C7 at a one-term document exactly matching its one reference
token: precision and recall are both `1`. -/
theorem C7_precision_recall_witness :
    (∃ p, (MeasureHolder.mk (F64.val 1) (F64.val 1)
        (f1 (F64.val 1) (F64.val 1))).precision = F64.val p ∧ 0 ≤ p ∧ p ≤ 1) ∧
    (∃ r, (MeasureHolder.mk (F64.val 1) (F64.val 1)
        (f1 (F64.val 1) (F64.val 1))).recall_ = F64.val r ∧ 0 ≤ r ∧ r ≤ 1) :=
  C7_precision_recall_in_unit_interval [("g", [["x"]])] "g.json"
    [("x", F64.val 1)] [["x"]]
    (MeasureHolder.mk (F64.val 1) (F64.val 1) (f1 (F64.val 1) (F64.val 1)))
    (by decide)
    (by
      rw [evalOne_ok_of_lookup [("g", [["x"]])] "g.json" [("x", F64.val 1)]
        [["x"]] (by decide)]
      have hs : sortRanked [("x", F64.val 1)] = [("x", F64.val 1)] := by decide
      have hf : flatTokens [["x"]] = ["x"] := by decide
      rw [hs, hf]
      have hr : relevantTerms [("x", F64.val 1)] ["x"] = ["x"] := by decide
      rw [hr]
      norm_num [natToF64, f64Div])
    (by decide) (by decide) (by decide)
